import Mathlib

/-!
Verification of the puzzle state model and A* search engine of `src/solver.py`
(classes `GameBoard` and `Solver`) against its natural-language specification.

The Python code is shallowly embedded: `hex_states` dictionaries become the
`HexState` structure, Python list indexing (with its negative-index wrapping
and `IndexError` on out-of-range accesses) is modelled by `pyGet` / `pySet`
returning `Option`, raised exceptions become `none` / `Option` results, and the
in-place mutations of `_update_unlock_status` become a pure recomputation of
the whole cell list (the recomputation only reads `element` fields, which it
never writes, so the order of the in-place writes is immaterial).
-/

namespace AutoOpus

/-- One cell of `GameBoard.hex_states`: the Python dictionary
`{"element": ..., "state": ..., "unlocked": ...}`.  The `unlocked` key is
absent (`none`) until `_update_unlock_status` first writes it, matching the
`h.get('unlocked', False)` accesses in the Python code. -/
structure HexState where
  element : String
  state : String
  unlocked : Option Bool
deriving DecidableEq, Repr

/-- Default used to model a Python read that cannot fail under the theorems'
hypotheses (the embedding of `l[i]` on a list of dicts). -/
def defaultHexState : HexState := ⟨"", "", none⟩

/-- `GameBoard.metal_transmutation_order` (solver.py line 14). -/
def metal_transmutation_order : List String :=
  ["LEAD", "TIN", "IRON", "COPPER", "SILVER", "GOLD"]

/-- The sentinel classifications `["EMPTY", "OUT_OF_BOUNDS", "UNKNOWN"]`
skipped by the unlock, solved and heuristic computations. -/
def sentinels : List String := ["EMPTY", "OUT_OF_BOUNDS", "UNKNOWN"]

/-- `basic_elements` of `GameBoard._is_valid_match` (solver.py line 80). -/
def basic_elements : List String := ["FIRE", "WATER", "EARTH", "AIR"]

/-- A `GameBoard`: the cell-state list `hex_states`, the grid's neighbor table
`self.grid.neighbors` (six entries per cell as produced by
`GridManager._calculate_neighbors`, `-1` denoting an off-grid slot), and the
memoized identity hash `self._hash` (`none` = not computed / invalidated). -/
structure GameBoard where
  neighbors : List (List Int)
  hex_states : List HexState
  hashCache : Option Nat
deriving DecidableEq, Repr

/-- Python list read `l[i]` for an `Int` index: `0 ≤ i < len` reads directly,
`-len ≤ i < 0` counts from the end, anything else raises `IndexError`
(modelled as `none`). -/
def pyGet (l : List HexState) (i : Int) : Option HexState :=
  if 0 ≤ i ∧ i < (l.length : Int) then l.get? i.toNat
  else if -(l.length : Int) ≤ i ∧ i < 0 then l.get? ((l.length : Int) + i).toNat
  else none

/-- Python list write `l[i] = v`, with the same index semantics as `pyGet`. -/
def pySet (l : List HexState) (i : Int) (v : HexState) : Option (List HexState) :=
  if 0 ≤ i ∧ i < (l.length : Int) then some (l.set i.toNat v)
  else if -(l.length : Int) ≤ i ∧ i < 0 then some (l.set ((l.length : Int) + i).toNat v)
  else none

/-- The element stored at (non-negative) index `i` of a board. -/
def elemAt (b : GameBoard) (i : Nat) : String :=
  (b.hex_states.getD i defaultHexState).element

/-- solver.py lines 36-44: whether a neighbor slot counts as empty — the slot
is off-grid (`-1`) or the cell it names is classified `EMPTY`.  On the grids
produced by `GridManager._calculate_neighbors` every non-`-1` entry is a valid
index, so the `none` branch of `pyGet` is unreachable there. -/
def neighborIsEmpty (states : List HexState) (n : Int) : Bool :=
  if n = -1 then true
  else match pyGet states n with
       | some h => h.element == "EMPTY"
       | none => false

/-- solver.py lines 31-56: the unlock flag computed for cell `i` of a
non-sentinel classification: build the list of neighbor-slot emptiness flags,
extend it by its first two entries (`neighbor_is_empty + neighbor_is_empty[:2]`)
and look for a window of three consecutive `true`s. -/
def computeUnlocked (b : GameBoard) (i : Nat) : Bool :=
  let neighbor_is_empty := (b.neighbors.getD i []).map (neighborIsEmpty b.hex_states)
  let is_empty_circular := neighbor_is_empty ++ neighbor_is_empty.take 2
  (List.range neighbor_is_empty.length).any
    (fun j => ((is_empty_circular.drop j).take 3).all id)

/-- `GameBoard._update_unlock_status` (solver.py lines 23-58) as a pure
recomputation: sentinel-classified cells get `unlocked = true`, every other
cell gets the three-consecutive-empty-neighbors flag.  The Python code mutates
`hex_states[i]['unlocked']` in place but only ever reads `element` fields,
which it never writes, so the batch recomputation is faithful. -/
def update_unlock_status (b : GameBoard) : GameBoard :=
  { b with hex_states := (List.range b.hex_states.length).map (fun i =>
      let h := b.hex_states.getD i defaultHexState
      if sentinels.contains h.element then { h with unlocked := some true }
      else { h with unlocked := some (computeUnlocked b i) }) }

/-- `GameBoard._is_lowest_rank_metal` (solver.py lines 93-101): the first
metal of `metal_transmutation_order` present anywhere on the board (Python's
`next(...)` over the generator) compared with the candidate. -/
def is_lowest_rank_metal (states : List HexState) (metal_element : String) : Bool :=
  metal_transmutation_order.find? (fun m => states.any (fun h => h.element == m))
    == some metal_element

/-- `GameBoard._is_valid_match` (solver.py lines 77-91). -/
def is_valid_match (states : List HexState) (idx1 idx2 : Nat) : Bool :=
  let e1 := (states.getD idx1 defaultHexState).element
  let e2 := (states.getD idx2 defaultHexState).element
  if basic_elements.contains e1 && e1 == e2 then true
  else if e1 == "SALT" && (basic_elements.contains e2 || e2 == "SALT") then true
  else if e2 == "SALT" && (basic_elements.contains e1 || e1 == "SALT") then true
  else if (e1 == "VITAE" && e2 == "MORS") || (e1 == "MORS" && e2 == "VITAE") then true
  else if e1 == "QUICKSILVER" && metal_transmutation_order.contains e2
          && !(e2 == "QUICKSILVER") then
    is_lowest_rank_metal states e2
  else if e2 == "QUICKSILVER" && metal_transmutation_order.contains e1
          && !(e1 == "QUICKSILVER") then
    is_lowest_rank_metal states e1
  else false

/-- The cell dict written by `apply_move` at both move indices:
`{"element": "EMPTY", "state": "normal", "unlocked": False}`. -/
def emptyCellState : HexState := ⟨"EMPTY", "normal", some false⟩

/-- `GameBoard.apply_move` (solver.py lines 103-110): deep-copy the board,
overwrite both indexed cells with EMPTY, recompute all unlock flags, and
invalidate the hash cache.  The two list writes use Python index semantics
(`pySet`); a raised `IndexError` is modelled as `none`.  The function is pure:
the original board value is untouched by construction, matching the deep copy
in the source. -/
def apply_move (b : GameBoard) (move : Int × Int) : Option GameBoard :=
  match pySet b.hex_states move.1 emptyCellState with
  | none => none
  | some s1 =>
    match pySet s1 move.2 emptyCellState with
    | none => none
    | some s2 =>
      some { update_unlock_status { b with hex_states := s2 } with hashCache := none }

/-- solver.py line 117: the classifications of the cells that still hold a
token (everything except EMPTY / OUT_OF_BOUNDS / UNKNOWN). -/
def remaining_elements (states : List HexState) : List String :=
  (states.filter (fun h => !(sentinels.contains h.element))).map (fun h => h.element)

/-- `GameBoard.is_solved` (solver.py lines 112-127). -/
def is_solved (b : GameBoard) : Bool :=
  let rem := remaining_elements b.hex_states
  if rem.isEmpty then true
  else if rem.length == 1 && rem.headD "" == "GOLD" then true
  else false

/-- The modulus of CPython's machine-word hash values on a 64-bit platform. -/
def HASH_MOD : Nat := 2 ^ 64

/-- Model of CPython's builtin string hash.  The real interpreter computes a
seed-randomized 64-bit SipHash, which only exists relative to a process-level
random seed; we model it as a fixed executable 64-bit string hash of the same
shape (an iterated multiply-xor folded over the characters, reduced mod
`2 ^ 64`).  No theorem below depends on the concrete values, only on the hash
being a pure function of the string with a 64-bit codomain. -/
def strHash (s : String) : Nat :=
  s.data.foldl (fun a c => ((a ^^^ c.toNat) * 1000003) % HASH_MOD) 5381

/-- CPython's hash combination step for tuple components (the multiply-xor of
the pre-3.8 tuple hash), reduced mod `2 ^ 64`. -/
def hashCombine (a x : Nat) : Nat := ((a ^^^ x) * 1000003) % HASH_MOD

/-- The hash of one cell dict as `GameBoard.__hash__` sees it:
`tuple(sorted(d.items()))` — the items `("element", _), ("state", _)` and,
when the `unlocked` key is present, `("unlocked", _)`, in sorted key order,
each item hashed as a 2-tuple and the results combined. -/
def hexStateHash (h : HexState) : Nat :=
  let items : List Nat :=
    [hashCombine (hashCombine 3430008 (strHash "element")) (strHash h.element),
     hashCombine (hashCombine 3430008 (strHash "state")) (strHash h.state)]
    ++ (match h.unlocked with
        | some u => [hashCombine (hashCombine 3430008 (strHash "unlocked")) (cond u 1 0)]
        | none => [])
  items.foldl hashCombine 3430008

/-- The pure hash of a cell-state sequence: the tuple-of-tuples hash computed
by `GameBoard.__hash__` (solver.py line 136). -/
def hashOfStates (states : List HexState) : Nat :=
  (states.map hexStateHash).foldl hashCombine 3430008

/-- `GameBoard.__hash__` (solver.py lines 133-137): return the memoized hash
if present, otherwise compute it from `hex_states` and cache it.  Returns the
hash together with the (possibly newly caching) board. -/
def board_hash (b : GameBoard) : Nat × GameBoard :=
  match b.hashCache with
  | some h => (h, b)
  | none => (hashOfStates b.hex_states,
             { b with hashCache := some (hashOfStates b.hex_states) })

/-- The value `GameBoard.__hash__` returns. -/
def board_hash_value (b : GameBoard) : Nat := (board_hash b).1

/-- `GameBoard.__eq__` (solver.py lines 139-140): equality of the two boards'
hash values (the `isinstance` test is vacuous in the typed embedding). -/
def board_eq (b1 b2 : GameBoard) : Bool :=
  board_hash_value b1 == board_hash_value b2

/-- A board whose memoized hash is not stale: either no hash has been cached
yet or the cache equals the pure hash of the current sequence.  Every board
the program builds through `__init__` / `apply_move` satisfies this. -/
def CacheConsistent (b : GameBoard) : Prop :=
  b.hashCache = none ∨ b.hashCache = some (hashOfStates b.hex_states)

/-- `GameBoard.update_board_state` (solver.py lines 17-21): replace the whole
cell list (raising `ValueError`, modelled as `none`, on a length mismatch) and
recompute the unlock flags.  Note: the source does not touch `self._hash`
here, so the embedding keeps `hashCache` unchanged. -/
def update_board_state (b : GameBoard) (identified_elements : List HexState) :
    Option GameBoard :=
  if identified_elements.length ≠ b.hex_states.length then none
  else some (update_unlock_status { b with hex_states := identified_elements })

/-- `tuple(sorted((idx1, idx2)))` (solver.py line 72). -/
def sortedPair (i j : Nat) : Nat × Nat := (min i j, max i j)

/-- All index pairs `(l[i], l[j])` with `i < j`, as iterated by the nested
loops of `find_possible_moves`, each canonicalized by `sortedPair`. -/
def pairs : List Nat → List (Nat × Nat)
  | [] => []
  | x :: rest => rest.map (fun y => sortedPair x y) ++ pairs rest

/-- `GameBoard.find_possible_moves` (solver.py lines 61-75): recompute unlock
flags, collect the unlocked indices, and keep the valid matches among all
unordered pairs of them. -/
def find_possible_moves (b : GameBoard) : List (Nat × Nat) :=
  let b' := update_unlock_status b
  let unlocked_hexes := (List.range b'.hex_states.length).filter
      (fun i => (b'.hex_states.getD i defaultHexState).unlocked.getD false)
  (pairs unlocked_hexes).filter (fun p => is_valid_match b'.hex_states p.1 p.2)

/-- An exact rational represented as an unreduced fraction.  Python computes
the solver's costs and threshold comparisons in IEEE floats; every quantity
the claims compare (the default weights, small counts, their sums) is modelled
as an exact rational.  Unreduced fractions with cross-multiplication
comparisons are used so that all arithmetic reduces inside the kernel.
Every fraction the embedding builds has a positive denominator. -/
structure PyNum where
  num : Int
  den : Int
deriving DecidableEq, Repr

/-- Embed a count. -/
def pynat (n : Nat) : PyNum := ⟨n, 1⟩

/-- Fraction addition. -/
def pyAdd (a b : PyNum) : PyNum := ⟨a.num * b.den + b.num * a.den, a.den * b.den⟩

/-- Fraction subtraction. -/
def pySub (a b : PyNum) : PyNum := ⟨a.num * b.den - b.num * a.den, a.den * b.den⟩

/-- Fraction multiplication. -/
def pyMul (a b : PyNum) : PyNum := ⟨a.num * b.num, a.den * b.den⟩

/-- Value equality of fractions (cross multiplication). -/
def pyBeq (a b : PyNum) : Bool := a.num * b.den == b.num * a.den

/-- Strict value order of fractions (cross multiplication; valid because all
denominators built by the embedding are positive). -/
def pyLt (a b : PyNum) : Bool := a.num * b.den < b.num * a.den

/-- Non-strict value order of fractions. -/
def pyLe (a b : PyNum) : Bool := a.num * b.den ≤ b.num * a.den

/-- The four heuristic weights (solver.py lines 167-172). -/
structure HWeights where
  remaining_elements_factor : PyNum
  locked_marbles_penalty : PyNum
  salt_marbles_reward : PyNum
  metal_marbles_penalty : PyNum
deriving Repr

/-- The documented default weights 0.5, 0.1, 1.0, 1.5. -/
def default_h_weights : HWeights := ⟨⟨1, 2⟩, ⟨1, 10⟩, ⟨1, 1⟩, ⟨3, 2⟩⟩

/-- The heuristic of `Solver.solve` (solver.py lines 369-381):
`remaining*factor + locked*locked_penalty - salt*salt_reward + metal*metal_penalty`. -/
def h_cost (w : HWeights) (b : GameBoard) : PyNum :=
  let remaining := b.hex_states.filter (fun h => !(sentinels.contains h.element))
  let locked := (remaining.filter (fun h => !(h.unlocked.getD false))).length
  let salt := (remaining.filter (fun h => h.element == "SALT")).length
  let metal := (remaining.filter (fun h =>
      metal_transmutation_order.contains h.element || h.element == "QUICKSILVER")).length
  pyAdd
    (pySub
      (pyAdd (pyMul (pynat remaining.length) w.remaining_elements_factor)
             (pyMul (pynat locked) w.locked_marbles_penalty))
      (pyMul (pynat salt) w.salt_marbles_reward))
    (pyMul (pynat metal) w.metal_marbles_penalty)

mutual

/-- A node of the interrupt condition tree: either a nested group (a dict with
a `logic` key) or a leaf `{variable, operator, value}`.  Thresholds are
numbers, as in the shipped configs.  The children sit in the companion list
type `CondList` (a plain `List` would make the recursion a nested one, which
does not reduce inside the kernel). -/
inductive Condition where
  | group (logic : String) (conditions : CondList)
  | leaf (var : String) (op : String) (value : PyNum)
deriving Repr

/-- A list of condition-tree nodes. -/
inductive CondList where
  | nil
  | cons (head : Condition) (tail : CondList)
deriving Repr

end

/-- Concatenation of condition lists (used only to state theorems about a
leaf sitting at an arbitrary position of a group). -/
def condAppend : CondList → CondList → CondList
  | .nil, l => l
  | .cons c rest, l => .cons c (condAppend rest l)

/-- The comparator table `ops` of `Solver._evaluate_conditions`
(solver.py lines 208-212): the recognized operator names. -/
def ops : List String := [">", "<", "==", "!=", ">=", "<="]

/-- Applying one recognized comparator. -/
def applyOp (op : String) (x y : PyNum) : Bool :=
  if op == ">" then pyLt y x
  else if op == "<" then pyLt x y
  else if op == "==" then pyBeq x y
  else if op == "!=" then !(pyBeq x y)
  else if op == ">=" then pyLe y x
  else if op == "<=" then pyLe x y
  else false

/-- Evaluation of one leaf (solver.py lines 220-229): `False` whenever the
variable is not a key of `values` or the operator is not in `ops`. -/
def leafEval (values : List (String × PyNum)) (var op : String) (value : PyNum) : Bool :=
  match values.lookup var with
  | some x => if ops.contains op then applyOp op x value else false
  | none => false

/-- Python's `str.upper()` on the ASCII logic strings of the config
(`String.toUpper` itself does not reduce in the kernel, so the character list
is mapped directly). -/
def pyUpper (s : String) : String := ⟨s.data.map Char.toUpper⟩

/-- The final AND / OR combination step of `Solver._evaluate_conditions`
(solver.py lines 231-235): anything other than AND / OR yields `False`. -/
def combineLogic (logic : String) (results : List Bool) : Bool :=
  if pyUpper logic == "AND" then results.all id
  else if pyUpper logic == "OR" then results.any id
  else false

mutual

/-- The result the loop of `_evaluate_conditions` (solver.py lines 214-229)
appends for one condition: nested groups (dicts with a `logic` key) recurse,
leaves go through `leafEval`. -/
def condResult (values : List (String × PyNum)) : Condition → Bool
  | .group logic conds => combineLogic logic (evalResults values conds)
  | .leaf var op value => leafEval values var op value

/-- The `results` list built by the loop of `_evaluate_conditions`. -/
def evalResults (values : List (String × PyNum)) : CondList → List Bool
  | .nil => []
  | .cons c rest => condResult values c :: evalResults values rest

end

/-- `Solver._evaluate_conditions` (solver.py lines 197-235) on a node with
`logic` and `conditions` entries: collect the per-condition results, then
combine with AND / OR. -/
def evaluate_conditions (values : List (String × PyNum)) (logic : String)
    (conditions : CondList) : Bool :=
  combineLogic logic (evalResults values conditions)

/-- The interrupt configuration: the `enabled` flag and the top-level
`condition_set` (its `logic` string and `conditions` list). -/
structure InterruptConfig where
  enabled : Bool
  logic : String
  conditions : CondList
deriving Repr

/-- The `values` dict built by `Solver._check_interrupt`
(solver.py lines 242-247). -/
def interruptValues (iteration open_set_size best_g_cost : Nat)
    (elapsed_time : PyNum) : List (String × PyNum) :=
  [("iteration", pynat iteration), ("open_set_size", pynat open_set_size),
   ("best_g_cost", pynat best_g_cost), ("elapsed_time", elapsed_time)]

/-- `Solver._check_interrupt` (solver.py lines 237-256). -/
def check_interrupt (cfg : InterruptConfig) (iteration open_set_size best_g_cost : Nat)
    (elapsed_time : PyNum) : Bool :=
  if !cfg.enabled then false
  else evaluate_conditions (interruptValues iteration open_set_size best_g_cost elapsed_time)
         cfg.logic cfg.conditions

/-- One frontier entry: the tuple
`(f_cost, g_cost, board_state, path, parent_board)` pushed on the heap
(solver.py lines 271 and 387). -/
structure Entry where
  f : PyNum
  g : Nat
  board : GameBoard
  path : List (Nat × Nat)
  parent : Option GameBoard
deriving DecidableEq, Repr

/-- Python `<` on move tuples. -/
def movePairLt (p q : Nat × Nat) : Bool :=
  p.1 < q.1 || (p.1 == q.1 && p.2 < q.2)

/-- Python `<` on move lists (lexicographic). -/
def pathLt : List (Nat × Nat) → List (Nat × Nat) → Bool
  | [], [] => false
  | [], _ :: _ => true
  | _ :: _, [] => false
  | p :: ps, q :: qs => if p = q then pathLt ps qs else movePairLt p q

/-- Python tuple `<` on two frontier entries: compare `f_cost`, then `g_cost`,
then the boards — where `GameBoard.__lt__` (solver.py lines 129-131) always
returns `False`, so two key-tied entries with non-equal boards are mutually
not-less — then the paths.  The final component (the parent, `None` for the
initial entry and a board for every pushed entry) is only ever compared when
everything earlier ties, which forces `g_cost` equality; the initial entry is
the unique one with `g_cost = 0`, so the `None`-versus-board comparison that
would raise `TypeError` in Python is unreachable and the embedding returns
`false` there. -/
def entry_lt (e1 e2 : Entry) : Bool :=
  if !(pyBeq e1.f e2.f) then pyLt e1.f e2.f
  else if e1.g ≠ e2.g then decide (e1.g < e2.g)
  else if !(board_eq e1.board e2.board) then false
  else if e1.path ≠ e2.path then pathLt e1.path e2.path
  else false

/-- Extract a minimal entry (with respect to `entry_lt`) from a non-empty
candidate pool, returning it together with the remaining entries. -/
def selectMin (e : Entry) : List Entry → Entry × List Entry
  | [] => (e, [])
  | x :: rest =>
    if entry_lt x e then
      let (m, l) := selectMin x rest
      (m, e :: l)
    else
      let (m, l) := selectMin e rest
      (m, x :: l)

/-- `heapq.heappop`: the heap always pops a smallest entry under the entry
order; the frontier is modelled as the plain list of live entries and pop as
extraction of the (leftmost) minimal one. -/
def heappop : List Entry → Option (Entry × List Entry)
  | [] => none
  | x :: rest => some (selectMin x rest)

/-- The body of the `while open_set:` loop of `Solver.solve`
(solver.py lines 287-399), with a fuel counter for termination (`none` means
the fuel ran out, `some r` that the Python function returns `r`).  Wall-clock
time is outside the model: `elapsed_time` is passed as `0`.  Per iteration:
read the best entry's `g_cost` (`open_set[0][1]`, the heap root, which is
exactly the entry `heappop` yields), check the interrupt (returning `None` —
solver.py line 316 — when it fires), pop, skip closed boards, mark closed,
return the path on a solved board, else push the successors with
`f = g + 1 + h` (closed-set membership and the closed-set skip both use
`__eq__`, i.e. hash equality). -/
def solveLoop (cfg : InterruptConfig) (w : HWeights) :
    Nat → List Entry → List GameBoard → Nat → Option (Option (List (Nat × Nat)))
  | 0, _, _, _ => none
  | fuel + 1, openSet, closed, iteration =>
    match heappop openSet with
    | none => some none
    | some (e, rest) =>
      let iteration' := iteration + 1
      if check_interrupt cfg iteration' openSet.length e.g (pynat 0) then
        some none
      else if closed.any (fun c => board_eq c e.board) then
        solveLoop cfg w fuel rest closed iteration'
      else
        let closed' := closed ++ [e.board]
        if is_solved e.board then some (some e.path)
        else
          let pushes := (find_possible_moves e.board).filterMap (fun m =>
            match apply_move e.board ((m.1 : Int), (m.2 : Int)) with
            | none => none
            | some nb =>
              if closed'.any (fun c => board_eq c nb) then none
              else
                some { f := pyAdd (pynat (e.g + 1)) (h_cost w nb), g := e.g + 1,
                       board := nb, path := e.path ++ [m], parent := some e.board })
          solveLoop cfg w fuel (rest ++ pushes) closed' iteration'

/-- `Solver.solve` (solver.py lines 258-399): start from the single entry
`(0, 0, initial_board, [], None)` with an empty closed set. -/
def solve (cfg : InterruptConfig) (w : HWeights) (fuel : Nat)
    (initial_board : GameBoard) : Option (Option (List (Nat × Nat))) :=
  solveLoop cfg w fuel [⟨pynat 0, 0, initial_board, [], none⟩] [] 0

/-! Specification-side definitions, used only on the right-hand sides of
refinement statements and compared against the code-side definitions above. -/

/-- The rank of a metal in the Metal Rank Order (its position in
`metal_transmutation_order`). -/
def metalRank (e : String) : Nat := metal_transmutation_order.indexOf e

/-- The metal classifications present anywhere on the board, in rank order. -/
def presentMetals (states : List HexState) : List String :=
  metal_transmutation_order.filter (fun m => states.any (fun h => h.element == m))

/-- The spec's wording for the Quicksilver gate: the candidate equals the
minimum, under the Metal Rank Order, of the metal classifications present
anywhere on the board. -/
def isMinPresentMetal (states : List HexState) (e : String) : Prop :=
  e ∈ presentMetals states ∧ ∀ m ∈ presentMetals states, metalRank e ≤ metalRank m

/-- An index that Python list indexing rejects outright for a list of this
board's size. -/
def IndexOutOfRange (b : GameBoard) (i : Int) : Prop :=
  i < -(b.hex_states.length : Int) ∨ (b.hex_states.length : Int) ≤ i

/-! Concrete fixtures for witnesses and counterexamples. -/

/-- A two-cell adjacency table: the cells neighbor each other in slot 1, all
other slots off-grid. -/
def nbrs2 : List (List Int) := [[1, -1, -1, -1, -1, -1], [0, -1, -1, -1, -1, -1]]

/-- A two-cell board holding two FIRE marbles (solvable in one move). -/
def twoFireBoard : GameBoard :=
  ⟨nbrs2, [⟨"FIRE", "normal", none⟩, ⟨"FIRE", "normal", none⟩], none⟩

/-- A one-cell board holding a single SILVER marble (unsolvable: rule (b) of
`is_solved` requires GOLD). -/
def silverBoard : GameBoard :=
  ⟨[[-1, -1, -1, -1, -1, -1]], [⟨"SILVER", "normal", none⟩], none⟩

/-- A cell as the element detector reports it. -/
def fireCell : HexState := ⟨"FIRE", "normal", some true⟩

/-- An interrupt configuration that fires at the first iteration. -/
def interruptCfg : InterruptConfig :=
  ⟨true, "AND", .cons (Condition.leaf "iteration" ">=" (pynat 1)) .nil⟩

/-- The default interrupt configuration: disabled. -/
def disabledCfg : InterruptConfig := ⟨false, "AND", .nil⟩

/-- A frontier entry with `f = 5`, `g = 1`. -/
def entryA : Entry := ⟨⟨5, 1⟩, 1, twoFireBoard, [], none⟩

/-- A frontier entry with the same `f = 5` but deeper `g = 2`. -/
def entryB : Entry := ⟨⟨5, 1⟩, 2, silverBoard, [(0, 1)], some twoFireBoard⟩

/-- The cell-state sequence encoding the 65 low bits of `n`: cell `k` is FIRE
when bit `k` of `n` is set and EMPTY otherwise.  Injective below `2 ^ 65`;
used for the pigeonhole argument on the 64-bit board hash. -/
def encodeStates (n : Nat) : List HexState :=
  (List.range 65).map (fun k =>
    if n.testBit k then ⟨"FIRE", "normal", none⟩ else ⟨"EMPTY", "normal", none⟩)

/-! Helper lemmas. -/

set_option maxRecDepth 10000

theorem getD_range_map {α : Type} (n : Nat) (f : Nat → α) (i : Nat) (d : α)
    (hi : i < n) : ((List.range n).map f).getD i d = f i := by
  simp [List.getD_eq_getElem?_getD, List.getElem?_map, List.getElem?_range hi]

theorem getD_map_bool (l : List Int) (g : Int → Bool) (m : Nat) (hm : m < l.length) :
    (l.map g).getD m false = g (l.getD m 0) := by
  simp [List.getD_eq_getElem?_getD, List.getElem?_map, List.getElem?_eq_getElem hm]

theorem foldl_hashCombine_lt (l : List Nat) (a : Nat) (ha : a < HASH_MOD) :
    l.foldl hashCombine a < HASH_MOD := by
  induction l generalizing a with
  | nil => exact ha
  | cons x xs ih => exact ih _ (Nat.mod_lt _ (by norm_num [HASH_MOD]))

theorem hashOfStates_lt (s : List HexState) : hashOfStates s < HASH_MOD :=
  foldl_hashCombine_lt _ _ (by norm_num [HASH_MOD])

theorem board_hash_value_of_consistent (b : GameBoard) (h : CacheConsistent b) :
    board_hash_value b = hashOfStates b.hex_states := by
  rcases h with h | h <;> simp [board_hash_value, board_hash, h]

theorem length_update_unlock (b : GameBoard) :
    (update_unlock_status b).hex_states.length = b.hex_states.length := by
  simp [update_unlock_status]

theorem elemAt_update_unlock (b : GameBoard) (k : Nat) :
    elemAt (update_unlock_status b) k = elemAt b k := by
  by_cases hk : k < b.hex_states.length
  · unfold elemAt update_unlock_status
    simp only
    rw [getD_range_map _ _ _ _ hk]
    split <;> rfl
  · unfold elemAt update_unlock_status
    simp only
    rw [List.getD_eq_getElem?_getD, List.getD_eq_getElem?_getD,
        List.getElem?_eq_none (by simpa using Nat.le_of_not_lt hk),
        List.getElem?_eq_none (Nat.le_of_not_lt hk)]

theorem encodeStates_inj (m n : Nat) (hm : m < 2 ^ 65) (hn : n < 2 ^ 65)
    (h : encodeStates m = encodeStates n) : m = n := by
  apply Nat.eq_of_testBit_eq
  intro k
  by_cases hk : k < 65
  · have hgd := congrArg (fun l => (l.getD k defaultHexState).element) h
    simp only [encodeStates] at hgd
    rw [getD_range_map _ _ _ _ hk, getD_range_map _ _ _ _ hk] at hgd
    cases hmk : m.testBit k <;> cases hnk : n.testBit k <;>
      simp [hmk, hnk] at hgd <;> rfl
  · rw [Nat.testBit_eq_false_of_lt
        (lt_of_lt_of_le hm (Nat.pow_le_pow_right (by norm_num) (by omega))),
      Nat.testBit_eq_false_of_lt
        (lt_of_lt_of_le hn (Nat.pow_le_pow_right (by norm_num) (by omega)))]

/-! Claim theorems. -/

/-- Claim C10: `is_solved` is true exactly when, discounting
EMPTY/OUT_OF_BOUNDS/UNKNOWN cells, no token remains or exactly one token
remains and it is GOLD; in particular a single remaining SILVER (or any
single non-GOLD token) is not solved. -/
theorem is_solved_characterization (b : GameBoard) :
    is_solved b = true ↔
      (remaining_elements b.hex_states = [] ∨
        remaining_elements b.hex_states = ["GOLD"]) := by
  unfold is_solved
  rcases h : remaining_elements b.hex_states with _ | ⟨e, _ | ⟨e2, rest2⟩⟩ <;>
    simp [h]

/-- Claim C4, counterexample: `__eq__` compares the memoized 64-bit hashes,
not the cell-state sequences, so by pigeonhole there are two boards with
different sequences that nevertheless compare equal — the claimed equivalence
between board equality and sequence equality is false. -/
theorem board_eq_ignores_state_sequence :
    ¬ (∀ b1 b2 : GameBoard, board_eq b1 b2 = true ↔ b1.hex_states = b2.hex_states) := by
  intro hclaim
  obtain ⟨a, b, hab, heq⟩ :=
    Fintype.exists_ne_map_eq_of_card_lt
      (fun n : Fin (HASH_MOD + 1) =>
        (⟨hashOfStates (encodeStates n.val), hashOfStates_lt _⟩ : Fin HASH_MOD))
      (by rw [Fintype.card_fin, Fintype.card_fin]; exact Nat.lt_succ_self _)
  have h1 : board_eq ⟨[], encodeStates a.val, none⟩ ⟨[], encodeStates b.val, none⟩ = true := by
    have : hashOfStates (encodeStates a.val) = hashOfStates (encodeStates b.val) :=
      congrArg Fin.val heq
    simp [board_eq, board_hash_value, board_hash, this]
  have h2 := (hclaim _ _).mp h1
  exact hab (Fin.ext (encodeStates_inj _ _
    (lt_of_lt_of_le a.isLt (by norm_num [HASH_MOD]))
    (lt_of_lt_of_le b.isLt (by norm_num [HASH_MOD])) h2))

/-- Claim C4, amended: board equality is exactly equality of the 64-bit
sequence hashes (for boards whose memoized cache is not stale); equal
cell-state sequences always give equal boards, but the converse direction of
the claim — that different sequences are never equal — does not hold, only
hash inequality separates boards. -/
theorem board_eq_is_hash_equality (b1 b2 : GameBoard)
    (h1 : CacheConsistent b1) (h2 : CacheConsistent b2) :
    (board_eq b1 b2 = true ↔
      hashOfStates b1.hex_states = hashOfStates b2.hex_states)
    ∧ (b1.hex_states = b2.hex_states → board_eq b1 b2 = true) := by
  have hv1 := board_hash_value_of_consistent b1 h1
  have hv2 := board_hash_value_of_consistent b2 h2
  constructor
  · simp [board_eq, hv1, hv2]
  · intro hseq
    simp [board_eq, hv1, hv2, hseq]

/-- Claim C4, witness for the amended theorem at a concrete board. -/
theorem board_eq_is_hash_equality_witness :
    CacheConsistent twoFireBoard ∧ board_eq twoFireBoard twoFireBoard = true :=
  ⟨Or.inl rfl,
   (board_eq_is_hash_equality twoFireBoard twoFireBoard (Or.inl rfl) (Or.inl rfl)).2 rfl⟩

/-- Claim C5: code bug, evaluated at the failing input.  Hash a two-cell
board (filling the memoized cache), then replace its cell states through
`update_board_state`: the cache still holds the hash of the old sequence
(`update_board_state` never clears `_hash`, unlike `apply_move`, whose
comment calls the invalidation CRITICAL), so the observed hash differs from
the pure hash of the new sequence. -/
theorem update_board_state_keeps_stale_hash :
    ((update_board_state (board_hash twoFireBoard).2 [fireCell, fireCell]).map
        (fun b => b.hashCache)
      = some (some (hashOfStates twoFireBoard.hex_states)))
    ∧ ((update_board_state (board_hash twoFireBoard).2 [fireCell, fireCell]).map
        (fun b => board_hash_value b)
      ≠ (update_board_state (board_hash twoFireBoard).2 [fireCell, fireCell]).map
        (fun b => hashOfStates b.hex_states)) := by
  constructor <;> decide

theorem pySet_eq_none_iff (l : List HexState) (i : Int) (v : HexState) :
    pySet l i v = none ↔ (i < -(l.length : Int) ∨ (l.length : Int) ≤ i) := by
  unfold pySet
  split
  · rename_i h
    simp only [reduceCtorEq, false_iff]
    omega
  · split
    · rename_i h h2
      simp only [reduceCtorEq, false_iff]
      omega
    · rename_i h h2
      simp only [true_iff]
      omega

theorem pySet_length (l : List HexState) (i : Int) (v : HexState) (s : List HexState)
    (h : pySet l i v = some s) : s.length = l.length := by
  unfold pySet at h
  split at h
  · cases h
    simp
  · split at h
    · cases h
      simp
    · cases h

theorem pySet_natCast (l : List HexState) (i : Nat) (v : HexState)
    (hi : i < l.length) : pySet l (i : Int) v = some (l.set i v) := by
  unfold pySet
  rw [if_pos ⟨by omega, by omega⟩]
  have : ((i : Int)).toNat = i := by omega
  rw [this]

/-- Claim C6: for in-range indices, `apply_move` succeeds and produces the
deep copy with both cells reclassified EMPTY followed by a full unlock
recomputation; every other cell keeps its classification, cell `i` ends up
unlocked (EMPTY cells are trivially unlocked, overriding the stale `False`
written before the recomputation), and the hash cache of the copy is
invalidated.  The original board is untouched: `apply_move` is a pure
function of the board value, mirroring the `copy.deepcopy` in the source. -/
theorem apply_move_frame (b : GameBoard) (i j : Nat)
    (hi : i < b.hex_states.length) (hj : j < b.hex_states.length) :
    ∃ nb, apply_move b ((i : Int), (j : Int)) = some nb ∧
      nb = { update_unlock_status
               { b with hex_states := (b.hex_states.set i emptyCellState).set j emptyCellState }
             with hashCache := none } ∧
      nb.hex_states.length = b.hex_states.length ∧
      elemAt nb i = "EMPTY" ∧ elemAt nb j = "EMPTY" ∧
      (∀ k, k ≠ i → k ≠ j → elemAt nb k = elemAt b k) ∧
      (nb.hex_states.getD i defaultHexState).unlocked = some true ∧
      nb.hashCache = none := by
  have hjlen : j < (b.hex_states.set i emptyCellState).length := by
    simpa using hj
  set sl : List HexState := (b.hex_states.set i emptyCellState).set j emptyCellState
    with hsl
  have hsllen : sl.length = b.hex_states.length := by simp [hsl]
  have hsli : sl.getD i defaultHexState = emptyCellState := by
    by_cases hij : i = j
    · subst hij
      simp [hsl, List.getD_eq_getElem?_getD, hi]
    · simp [hsl, List.getD_eq_getElem?_getD, List.getElem?_set_ne (Ne.symm hij), hi]
  have hslj : sl.getD j defaultHexState = emptyCellState := by
    rw [hsl, List.getD_eq_getElem?_getD, List.getElem?_set_self hjlen]
    rfl
  have hslk : ∀ k, k ≠ i → k ≠ j → sl.getD k defaultHexState
      = b.hex_states.getD k defaultHexState := by
    intro k hki hkj
    simp [hsl, List.getD_eq_getElem?_getD, List.getElem?_set_ne (Ne.symm hkj),
      List.getElem?_set_ne (Ne.symm hki)]
  set staged : GameBoard := { b with hex_states := sl } with hstaged
  set nb : GameBoard := { update_unlock_status staged with hashCache := none } with hnb
  have hstagedstates : staged.hex_states = sl := rfl
  have hilen2 : i < staged.hex_states.length := by
    rw [hstagedstates, hsllen]
    exact hi
  refine ⟨nb, ?_, rfl, ?_, ?_, ?_, ?_, ?_, rfl⟩
  · unfold apply_move
    simp only [pySet_natCast _ _ _ hi, pySet_natCast _ _ _ hjlen]
  · simp [hnb, length_update_unlock, hstagedstates, hsllen]
  · rw [show elemAt nb i = elemAt staged i from elemAt_update_unlock staged i]
    unfold elemAt
    rw [hstagedstates, hsli]
    rfl
  · rw [show elemAt nb j = elemAt staged j from elemAt_update_unlock staged j]
    unfold elemAt
    rw [hstagedstates, hslj]
    rfl
  · intro k hki hkj
    rw [show elemAt nb k = elemAt staged k from elemAt_update_unlock staged k]
    unfold elemAt
    rw [hstagedstates, hslk k hki hkj]
  · have hthis : nb.hex_states.getD i defaultHexState
        = (fun m => let h := staged.hex_states.getD m defaultHexState
                    if sentinels.contains h.element then { h with unlocked := some true }
                    else { h with unlocked := some (computeUnlocked staged m) }) i := by
      simp only [hnb, update_unlock_status]
      exact getD_range_map _ _ _ _ hilen2
    rw [hthis]
    simp only [hstagedstates, hsli]
    rfl

/-- Claim C6, witness: the frame theorem applied to the concrete two-FIRE
board and the move (0, 1). -/
theorem apply_move_frame_witness :
    ∃ nb, apply_move twoFireBoard (((0 : Nat) : Int), ((1 : Nat) : Int)) = some nb ∧
      elemAt nb 0 = "EMPTY" ∧ elemAt nb 1 = "EMPTY" := by
  obtain ⟨nb, h1, _, _, h4, h5, _⟩ :=
    apply_move_frame twoFireBoard 0 1 (by decide) (by decide)
  exact ⟨nb, h1, h4, h5⟩

/-- Claim C7, counterexample: `apply_move` performs no bounds check, and a
negative in-Python-range index is silently interpreted from the end of the
list: the move `(-1, 0)` on the two-cell board succeeds (emptying cells 1 and
0) instead of failing with an error. -/
theorem apply_move_negative_index_silently_wraps :
    apply_move twoFireBoard (-1, 0)
      = some { neighbors := nbrs2,
               hex_states := [⟨"EMPTY", "normal", some true⟩,
                              ⟨"EMPTY", "normal", some true⟩],
               hashCache := none } := by decide

/-- Claim C7, amended: `apply_move` fails (with a raised index error, not a
custom InvalidMove error) exactly when an index is `≥ len` or `< -len`, and a
negative index in `[-len, -1]` is silently treated as counting from the end
of the cell list, producing a Board. -/
theorem apply_move_out_of_range_behavior (b : GameBoard) (i j : Int) :
    (apply_move b (i, j) = none ↔ IndexOutOfRange b i ∨ IndexOutOfRange b j)
    ∧ (-(b.hex_states.length : Int) ≤ i → i < 0 →
        apply_move b (i, j) = apply_move b (i + (b.hex_states.length : Int), j)) := by
  constructor
  · unfold apply_move
    rcases hi1 : pySet b.hex_states i emptyCellState with _ | s1
    · have hout : IndexOutOfRange b i := (pySet_eq_none_iff _ _ _).mp hi1
      simp [hi1, hout]
    · rcases hi2 : pySet s1 j emptyCellState with _ | s2
      · have hlen := pySet_length _ _ _ _ hi1
        have hout : IndexOutOfRange b j := by
          have := (pySet_eq_none_iff _ _ _).mp hi2
          rw [hlen] at this
          exact this
        simp [hi1, hi2, hout]
      · have hni : ¬ IndexOutOfRange b i := by
          intro hcon
          rw [(pySet_eq_none_iff _ _ _).mpr hcon] at hi1
          cases hi1
        have hnj : ¬ IndexOutOfRange b j := by
          intro hcon
          have hlen := pySet_length _ _ _ _ hi1
          rw [show pySet s1 j emptyCellState = none from ?_] at hi2
          · cases hi2
          · apply (pySet_eq_none_iff _ _ _).mpr
            rw [hlen]
            exact hcon
        simp [hi1, hi2, hni, hnj]
  · intro h1 h2
    have hswap : pySet b.hex_states i emptyCellState
        = pySet b.hex_states (i + (b.hex_states.length : Int)) emptyCellState := by
      unfold pySet
      rw [if_neg (by omega), if_pos ⟨by omega, by omega⟩, if_pos ⟨by omega, by omega⟩]
      have : ((b.hex_states.length : Int) + i).toNat = (i + (b.hex_states.length : Int)).toNat := by
        omega
      rw [this]
    unfold apply_move
    rw [hswap]

/-- Claim C7, witness for the amended theorem: on the two-cell board, the
move `(-1, 0)` behaves exactly like the move `(1, 0)`. -/
theorem apply_move_out_of_range_behavior_witness :
    apply_move twoFireBoard (-1, 0)
      = apply_move twoFireBoard (-1 + (twoFireBoard.hex_states.length : Int), 0) :=
  (apply_move_out_of_range_behavior twoFireBoard (-1) 0).2 (by decide) (by decide)

theorem circular_window_spec (ne : List Bool) (h6 : ne.length = 6) :
    ((List.range ne.length).any
        (fun j => (((ne ++ ne.take 2).drop j).take 3).all id) = true)
      ↔ ∃ j < 6, ∀ k < 3, ne.getD ((j + k) % 6) false = true := by
  rcases ne with _ | ⟨a, ne⟩
  · simp at h6
  rcases ne with _ | ⟨b, ne⟩
  · simp at h6
  rcases ne with _ | ⟨c, ne⟩
  · simp at h6
  rcases ne with _ | ⟨d, ne⟩
  · simp at h6
  rcases ne with _ | ⟨e, ne⟩
  · simp at h6
  rcases ne with _ | ⟨f, ne⟩
  · simp at h6
  rcases ne with _ | ⟨g, ne⟩
  · cases a <;> cases b <;> cases c <;> cases d <;> cases e <;> cases f <;> decide
  · simp at h6

/-- Claim C2: after unlock recomputation, a cell with a non-sentinel
classification is unlocked exactly when some circular run of three
consecutive neighbor slots (wrapping modulo 6) are each off-grid or
classified EMPTY, and every EMPTY / OUT_OF_BOUNDS / UNKNOWN cell is
unlocked. -/
theorem unlock_rule_correct (b : GameBoard) (i : Nat)
    (hi : i < b.hex_states.length)
    (h6 : (b.neighbors.getD i []).length = 6) :
    (sentinels.contains (elemAt b i) = false →
      (((update_unlock_status b).hex_states.getD i defaultHexState).unlocked = some true ↔
        ∃ j < 6, ∀ k < 3,
          neighborIsEmpty b.hex_states ((b.neighbors.getD i []).getD ((j + k) % 6) 0) = true))
    ∧ (sentinels.contains (elemAt b i) = true →
      ((update_unlock_status b).hex_states.getD i defaultHexState).unlocked = some true) := by
  have hflag : (update_unlock_status b).hex_states.getD i defaultHexState
      = (fun m => let h := b.hex_states.getD m defaultHexState
                  if sentinels.contains h.element then { h with unlocked := some true }
                  else { h with unlocked := some (computeUnlocked b m) }) i := by
    simp only [update_unlock_status]
    exact getD_range_map _ _ _ _ hi
  have hmod : ∀ j k : Nat, (j + k) % 6 < (b.neighbors.getD i []).length := by
    intro j k
    rw [h6]
    exact Nat.mod_lt _ (by norm_num)
  constructor
  · intro hsent
    rw [hflag]
    simp only [elemAt] at hsent
    simp only [hsent, Bool.false_eq_true, if_false, Option.some.injEq]
    unfold computeUnlocked
    rw [circular_window_spec _ (by rw [List.length_map]; exact h6)]
    constructor
    · rintro ⟨j, hj, hk⟩
      exact ⟨j, hj, fun k hkk => by
        rw [← getD_map_bool _ (neighborIsEmpty b.hex_states) _ (hmod j k)]
        exact hk k hkk⟩
    · rintro ⟨j, hj, hk⟩
      exact ⟨j, hj, fun k hkk => by
        rw [getD_map_bool _ (neighborIsEmpty b.hex_states) _ (hmod j k)]
        exact hk k hkk⟩
  · intro hsent
    rw [hflag]
    simp only [elemAt] at hsent
    simp only [hsent, eq_self_iff_true, if_true]

/-- Claim C2, witness: on the two-cell board, FIRE cell 0 (with five
off-grid slots) is unlocked, witnessed by the run starting at slot 1. -/
theorem unlock_rule_correct_witness :
    ((update_unlock_status twoFireBoard).hex_states.getD 0 defaultHexState).unlocked
      = some true := by
  have h := (unlock_rule_correct twoFireBoard 0 (by decide) (by decide)).1 (by decide)
  exact h.mpr ⟨1, by decide, by decide⟩

theorem find_first_present_iff_min (p : String → Bool) (e : String) :
    (metal_transmutation_order.find? p == some e) = true ↔
      (e ∈ metal_transmutation_order.filter p ∧
        ∀ m ∈ metal_transmutation_order.filter p, metalRank e ≤ metalRank m) := by
  rw [beq_iff_eq, ← List.filter_head?]
  have hpw : (metal_transmutation_order.filter p).Pairwise
      (fun a b => metalRank a < metalRank b) :=
    List.Pairwise.sublist (List.filter_sublist _) (by decide)
  rcases hfl : metal_transmutation_order.filter p with _ | ⟨x, rest⟩
  · simp
  · rw [hfl] at hpw
    rw [List.head?_cons, Option.some_inj]
    constructor
    · rintro rfl
      refine ⟨List.mem_cons_self _ _, ?_⟩
      intro m hm
      rcases List.mem_cons.mp hm with rfl | hm
      · exact le_refl _
      · exact Nat.le_of_lt ((List.pairwise_cons.mp hpw).1 m hm)
    · rintro ⟨hmem, hmin⟩
      rcases List.mem_cons.mp hmem with rfl | hmem
      · rfl
      · have h1 := (List.pairwise_cons.mp hpw).1 e hmem
        have h2 := hmin x (List.mem_cons_self _ _)
        omega

/-- Claim C3: a QUICKSILVER cell and a metal cell form a valid match exactly
when the metal is the minimum, under the Metal Rank Order, of the metal
classifications present anywhere on the board — in either argument order. -/
theorem quicksilver_gate (b : GameBoard) (i j : Nat) (_hij : i ≠ j)
    (hqs : elemAt b i = "QUICKSILVER")
    (hm : elemAt b j ∈ metal_transmutation_order) :
    (is_valid_match b.hex_states i j = true ↔ isMinPresentMetal b.hex_states (elemAt b j))
    ∧ (is_valid_match b.hex_states j i = true ↔
        isMinPresentMetal b.hex_states (elemAt b j)) := by
  have key : ∀ e, (is_lowest_rank_metal b.hex_states e = true) ↔
      isMinPresentMetal b.hex_states e := by
    intro e
    unfold is_lowest_rank_metal isMinPresentMetal presentMetals
    exact find_first_present_iff_min _ e
  unfold elemAt at hqs hm ⊢
  constructor
  · simp only [is_valid_match]
    rw [hqs]
    revert hm
    generalize (b.hex_states.getD j defaultHexState).element = e2
    intro hm
    fin_cases hm <;> simpa [metal_transmutation_order] using key _
  · simp only [is_valid_match]
    rw [hqs]
    revert hm
    generalize (b.hex_states.getD j defaultHexState).element = e2
    intro hm
    fin_cases hm <;> simpa [metal_transmutation_order] using key _

/-- Claim C3, witness: on a board holding QUICKSILVER, LEAD and IRON, the
QUICKSILVER-LEAD pair is a valid match (LEAD is the minimum present metal). -/
theorem quicksilver_gate_witness :
    is_valid_match
      [⟨"QUICKSILVER", "normal", some true⟩, ⟨"LEAD", "normal", some true⟩,
       ⟨"IRON", "normal", some true⟩] 0 1 = true := by
  have h := (quicksilver_gate
    ⟨[], [⟨"QUICKSILVER", "normal", some true⟩, ⟨"LEAD", "normal", some true⟩,
          ⟨"IRON", "normal", some true⟩], none⟩
    0 1 (by decide) (by decide) (by decide)).1
  apply h.mpr
  constructor
  · decide
  · decide

theorem evalResults_condAppend (values : List (String × PyNum)) :
    (l1 l2 : CondList) → evalResults values (condAppend l1 l2)
      = evalResults values l1 ++ evalResults values l2
  | .nil, l2 => rfl
  | .cons c rest, l2 => by
    simp [condAppend, evalResults, evalResults_condAppend values rest l2]

/-- Claim C9: a leaf whose variable is not one of the four solver metrics, or
whose operator is not one of the six comparators, evaluates to `False`
without aborting the evaluation — a condition set containing such a leaf
evaluates exactly as if the leaf were a constant-false node (an empty OR
group), at any position and under any logic. -/
theorem malformed_leaf_never_aborts (i s g : Nat) (t value : PyNum) (var op : String)
    (hbad : var ∉ ["iteration", "open_set_size", "best_g_cost", "elapsed_time"] ∨
            op ∉ ops) :
    leafEval (interruptValues i s g t) var op value = false ∧
    ∀ logic before after,
      evaluate_conditions (interruptValues i s g t) logic
          (condAppend before (.cons (.leaf var op value) after))
        = evaluate_conditions (interruptValues i s g t) logic
          (condAppend before (.cons (.group "OR" .nil) after)) := by
  have hleaf : leafEval (interruptValues i s g t) var op value = false := by
    rcases hbad with hvar | hop
    · simp only [List.mem_cons, List.not_mem_nil, or_false, not_or] at hvar
      obtain ⟨h1, h2, h3, h4⟩ := hvar
      have b1 : (var == "iteration") = false := beq_eq_false_iff_ne.mpr h1
      have b2 : (var == "open_set_size") = false := beq_eq_false_iff_ne.mpr h2
      have b3 : (var == "best_g_cost") = false := beq_eq_false_iff_ne.mpr h3
      have b4 : (var == "elapsed_time") = false := beq_eq_false_iff_ne.mpr h4
      simp [leafEval, interruptValues, List.lookup, b1, b2, b3, b4]
    · cases hl : (interruptValues i s g t).lookup var with
      | none => simp [leafEval, hl]
      | some x => simp [leafEval, hl, hop]
  refine ⟨hleaf, ?_⟩
  intro logic before after
  unfold evaluate_conditions
  congr 1
  rw [evalResults_condAppend, evalResults_condAppend]
  congr 1
  show condResult _ (.leaf var op value) :: evalResults _ after
      = condResult _ (.group "OR" .nil) :: evalResults _ after
  rw [show condResult (interruptValues i s g t) (.leaf var op value) = false from hleaf,
      show condResult (interruptValues i s g t) (.group "OR" .nil) = false from rfl]

/-- Claim C9, witness: a leaf naming the unknown variable `bogus` evaluates
to false against the solver metrics. -/
theorem malformed_leaf_never_aborts_witness :
    leafEval (interruptValues 1 1 0 (pynat 0)) "bogus" ">" (pynat 1) = false :=
  (malformed_leaf_never_aborts 1 1 0 (pynat 0) (pynat 1) "bogus" ">"
    (Or.inl (by decide))).1

/-- Claim C8, counterexample: among two frontier entries with equal `f_cost`,
the heap pops the entry with the SMALLER `g_cost` first (the tuples are
compared ascending and `heapq` is a min-heap), not the larger one as the
claim states: with `entryA.g = 1 < 2 = entryB.g` and equal `f = 5`, the pop
yields `entryA`. -/
theorem heap_pops_smaller_g_first :
    heappop [entryB, entryA] = some (entryA, [entryB])
    ∧ pyBeq entryB.f entryA.f = true ∧ entryA.g < entryB.g := by decide

/-- Claim C8, amended: the frontier order is ascending lexicographic in
`(f_cost, g_cost)` — so ties in `f_cost` resolve toward SHALLOWER paths
(smaller `g_cost` pops first) — and two entries tying on both keys with
non-equal boards are mutually not-less (`GameBoard.__lt__` returns `False`),
so the comparison is a total function that never throws and favors neither. -/
theorem frontier_order_characterization (e1 e2 : Entry) :
    (pyLt e1.f e2.f = true → entry_lt e1 e2 = true ∧ entry_lt e2 e1 = false)
    ∧ (pyBeq e1.f e2.f = true → e1.g < e2.g →
        entry_lt e1 e2 = true ∧ entry_lt e2 e1 = false)
    ∧ (pyBeq e1.f e2.f = true → e1.g = e2.g → board_eq e1.board e2.board = false →
        entry_lt e1 e2 = false ∧ entry_lt e2 e1 = false) := by
  refine ⟨fun h => ?_, fun hbeq hg => ?_, fun hbeq hg hb => ?_⟩
  · replace h : e1.f.num * e2.f.den < e2.f.num * e1.f.den := by
      simpa [pyLt] using h
    have hne : (e1.f.num * e2.f.den == e2.f.num * e1.f.den) = false :=
      beq_eq_false_iff_ne.mpr (by omega)
    have hne2 : (e2.f.num * e1.f.den == e1.f.num * e2.f.den) = false :=
      beq_eq_false_iff_ne.mpr (by omega)
    constructor
    · simp [entry_lt, pyBeq, pyLt, hne, h]
    · simp only [entry_lt, pyBeq, pyLt, hne2, Bool.not_false, if_true]
      simp
      omega
  · replace hbeq : e1.f.num * e2.f.den = e2.f.num * e1.f.den := by
      simpa [pyBeq] using hbeq
    have ht1 : (e1.f.num * e2.f.den == e2.f.num * e1.f.den) = true :=
      beq_iff_eq.mpr hbeq
    have ht2 : (e2.f.num * e1.f.den == e1.f.num * e2.f.den) = true :=
      beq_iff_eq.mpr hbeq.symm
    constructor
    · simp [entry_lt, pyBeq, pyLt, ht1, Nat.ne_of_lt hg, hg]
    · simp [entry_lt, pyBeq, pyLt, ht2, Nat.ne_of_lt hg, Nat.lt_asymm hg,
        (Nat.ne_of_lt hg).symm]
  · replace hbeq : e1.f.num * e2.f.den = e2.f.num * e1.f.den := by
      simpa [pyBeq] using hbeq
    have ht1 : (e1.f.num * e2.f.den == e2.f.num * e1.f.den) = true :=
      beq_iff_eq.mpr hbeq
    have ht2 : (e2.f.num * e1.f.den == e1.f.num * e2.f.den) = true :=
      beq_iff_eq.mpr hbeq.symm
    have hbsym : board_eq e2.board e1.board = false := by
      unfold board_eq at hb ⊢
      simpa [BEq.comm] using hb
    constructor
    · simp [entry_lt, pyBeq, pyLt, ht1, hg, hb]
    · simp [entry_lt, pyBeq, pyLt, ht2, hg.symm, hbsym]

/-- Claim C8, witness for the amended theorem at the two concrete entries. -/
theorem frontier_order_characterization_witness :
    entry_lt entryA entryB = true ∧ entry_lt entryB entryA = false :=
  (frontier_order_characterization entryA entryB).2.1 (by decide) (by decide)

/-- Claim C1, counterexample: the interrupt outcome and the
frontier-exhaustion outcome of `solve` are the very same value `None`, not
two distinct signals.  The two-FIRE board is solvable (the run without
interrupts returns its one-move path), yet the interrupted run returns
`None` — exactly the value the exhausted run on the dead SILVER board
returns. -/
theorem interrupt_and_exhaustion_return_same_value :
    solve interruptCfg default_h_weights 5 twoFireBoard = some none
    ∧ solve disabledCfg default_h_weights 5 twoFireBoard = some (some [(0, 1)])
    ∧ solve disabledCfg default_h_weights 5 silverBoard = some none
    ∧ solve interruptCfg default_h_weights 5 twoFireBoard
        = solve disabledCfg default_h_weights 5 silverBoard := by
  refine ⟨?_, ?_, ?_, ?_⟩ <;> decide

/-- Claim C1, amended: both terminal outcomes are the same caller-observable
value: the search loop returns `None` when the frontier is exhausted and the
same `None` when the interrupt condition fires (solver.py lines 316 and 399);
the two cases are distinguishable only through the logged message, not
through the value `solve` returns. -/
theorem solve_returns_none_on_interrupt_and_exhaustion :
    (∀ cfg w fuel closed iteration,
      solveLoop cfg w (fuel + 1) [] closed iteration = some none)
    ∧ (∀ cfg w fuel openSet closed iteration e rest,
        heappop openSet = some (e, rest) →
        check_interrupt cfg (iteration + 1) openSet.length e.g (pynat 0) = true →
        solveLoop cfg w (fuel + 1) openSet closed iteration = some none) := by
  constructor
  · intro cfg w fuel closed iteration
    rfl
  · intro cfg w fuel openSet closed iteration e rest hpop hint
    unfold solveLoop
    rw [hpop]
    simp only [hint, if_true]

/-- Claim C1, witness for the amended theorem: an interrupt firing at the
first iteration makes the loop return `None` on the solvable two-FIRE
board. -/
theorem solve_returns_none_witness :
    solveLoop interruptCfg default_h_weights 1
      [⟨pynat 0, 0, twoFireBoard, [], none⟩] [] 0 = some none :=
  solve_returns_none_on_interrupt_and_exhaustion.2 interruptCfg default_h_weights 0
    [⟨pynat 0, 0, twoFireBoard, [], none⟩] [] 0
    ⟨pynat 0, 0, twoFireBoard, [], none⟩ [] (by decide) (by decide)

end AutoOpus
